import Mathlib

/-!
Verification of the flag-placement logic of `src/js/parts/FlagsSeries.js`
(the Highcharts "flags" series type).

The embedding models the module's three phases over exact rationals:

* `translate` (source lines 269-366): binding each flag to a reference
  ("on") series by scanning reference points from the right, with linear
  interpolation between straddling reference points, then the axis
  fallback and the stacking pass that assigns `stackIndex` ranks to
  flags sharing a pixel `plotX`;
* `drawPoints` (lines 371-477): per-point draw geometry — the stacking
  offset applied at draw time, connector anchors, the title fallback
  chain, and destruction of graphics for non-renderable points;
* the `mouseover` handler installed by `drawTracker` (lines 482-516),
  and the `circlepin` symbol (lines 541-566).

JavaScript `undefined` is modelled by `Option`, JavaScript truthiness of
numbers/strings/options is modelled explicitly where the source relies
on it, and pixel arithmetic is exact (`ℚ`).
-/

namespace Flags

/-- Which channel of the reference series a flag binds to
(`options.onKey`, one of `y`/`open`/`high`/`low`/`close`). -/
inductive OnKey
  | y
  | open_
  | high
  | low
  | close
  deriving DecidableEq, Repr

/-- A point of the reference ("on") series: an x value plus the pixel
values of its channels (`plotY`/`plotOpen`/…), each possibly undefined. -/
structure RefPoint where
  x : ℚ
  plotY : Option ℚ := none
  plotOpen : Option ℚ := none
  plotHigh : Option ℚ := none
  plotLow : Option ℚ := none
  plotClose : Option ℚ := none
  deriving DecidableEq, Repr

/-- `leftPoint[onKey]` after `onKey = 'plot' + …` (source line 306). -/
def RefPoint.channel (p : RefPoint) : OnKey → Option ℚ
  | .y => p.plotY
  | .open_ => p.plotOpen
  | .high => p.plotHigh
  | .low => p.plotLow
  | .close => p.plotClose

/-- The reference series the flags are drawn on (`chart.get(options.onSeries)`). -/
structure OnSeries where
  visible : Bool
  /-- truthiness of `onSeries.options.step` -/
  step : Bool
  points : List RefPoint
  pointXOffset : ℚ := 0
  barW : ℚ := 0
  /-- `currentDataGrouping.totalRange` when grouping is active -/
  currentDataGrouping : Option ℚ := none
  deriving DecidableEq, Repr

/-- `point.shapeArgs`: either whatever the column translate produced, or
the empty object `{}` assigned for off-range points (source line 350). -/
inductive ShapeArgs
  | fromColumn
  | empty
  deriving DecidableEq, Repr

/-- The rendered label graphic of a flag point, reduced to the
attributes the module reads and writes. -/
structure Graphic where
  text : String := ""
  x : ℚ := 0
  y : ℚ := 0
  anchorX : Option ℚ := none
  anchorY : Option ℚ := none
  deriving DecidableEq, Repr

/-- A flag point with the fields the module reads and mutates. -/
structure FlagPoint where
  x : ℚ
  plotX : ℚ := 0
  plotY : Option ℚ := none
  stackIndex : Option ℕ := none
  shapeArgs : ShapeArgs := ShapeArgs.fromColumn
  /-- `point.options.title` -/
  title : Option String := none
  graphic : Option Graphic := none
  raised : Bool := false
  /-- `point._y`, the stored pre-raise y of the graphic -/
  origY : Option ℚ := none
  deriving DecidableEq, Repr

instance : Inhabited FlagPoint := ⟨{ x := 0 }⟩

/-- The series' chart/axis environment and the series options the
claims depend on. -/
structure ChartEnv where
  chartHeight : ℚ := 400
  xAxisBottom : ℚ := 0
  xAxisOpposite : Bool := false
  xAxisHeight : ℚ := 0
  xAxisOffset : ℚ := 0
  yAxisTop : ℚ := 0
  xAxisLen : ℚ := 500
  xAxisMin : ℚ := 0
  xAxisMax : ℚ := 100
  onSeries : Option OnSeries := none
  onKey : OnKey := OnKey.y
  /-- `options.y`, default -30 -/
  optionsY : ℚ := -30
  /-- `options.stackDistance`, default 12 -/
  stackDistance : ℚ := 12
  /-- `options.title` -/
  title : Option String := none
  /-- `graphic.strokeWidth() % 2` (source line 445) -/
  strokeWidthMod2 : ℚ := 1
  deriving DecidableEq, Repr

/-! ## translate: attachment to the reference series (lines 296-332) -/

/-- `xOffset = (onSeries.pointXOffset || 0) + (onSeries.barW || 0) / 2`
(source line 297). -/
def xOffsetOf (os : OnSeries) : ℚ :=
  os.pointXOffset + os.barW / 2

/-- `lastX = onData[i - 1].x + (currentDataGrouping ? currentDataGrouping.totalRange : 0)`
(source line 299). -/
def lastXOf (os : OnSeries) : ℚ :=
  (match os.points.getLast? with
    | some q => q.x
    | none => 0) + os.currentDataGrouping.getD 0

/-- The body of the match branch of the attachment loop (source lines
311-324): when the flag is within `lastX`, set `plotY` to the left
reference point's channel value `l`, interpolating linearly towards
`onData[m+1]` when the left point is strictly left of the flag, the
series is not in step mode, and the right point's channel is defined. -/
def bindPoint (onData : List RefPoint) (key : OnKey) (step : Bool) (lastX : ℚ)
    (m : ℕ) (leftPoint : RefPoint) (l : ℚ) (point : FlagPoint) : FlagPoint :=
  if point.x ≤ lastX then
    { point with plotY := some (
        if leftPoint.x < point.x ∧ step = false then
          match onData[m + 1]? with
          | some rightPoint =>
            match rightPoint.channel key with
            | some r =>
              l + ((point.x - leftPoint.x) / (rightPoint.x - leftPoint.x)) * (r - l)
            | none => l
          | none => l
        else l) }
  else point

/-- The `while (i-- && points[cursor])` loop of `translate` (source
lines 307-331): `i` is the value of the loop variable before the
decrement, `cursor` the index of the flag under consideration.  On a
match the source does `cursor--; i++`, so the recursive call keeps `i`
and decrements `cursor`; on a failed test only `i` decreases. -/
def attachLoop (onData : List RefPoint) (key : OnKey) (step : Bool) (lastX : ℚ)
    (i cursor : ℕ) (pts : List FlagPoint) : List FlagPoint :=
  if i = 0 then pts
  else
    match pts[cursor]? with
    | none => pts
    | some point =>
      match onData[i - 1]? with
      | none => pts
      | some leftPoint =>
        match leftPoint.channel key with
        | some l =>
          if leftPoint.x ≤ point.x then
            let pts' := pts.set cursor
              (bindPoint onData key step lastX (i - 1) leftPoint l point)
            if cursor = 0 then pts'
            else attachLoop onData key step lastX i (cursor - 1) pts'
          else attachLoop onData key step lastX (i - 1) cursor pts
        | none => attachLoop onData key step lastX (i - 1) cursor pts
  termination_by (i, cursor)
  decreasing_by
    all_goals
      first
        | exact Prod.Lex.right i (by omega)
        | exact Prod.Lex.left _ _ (by omega)

/-- `stableSort(points, (a, b) => a.x - b.x)` (source lines 302-304):
a stable ascending sort on `x`, embedded as insertion sort (any two
stable sorts with the same key agree). -/
def sortPoints (pts : List FlagPoint) : List FlagPoint :=
  List.insertionSort (fun a b => a.x ≤ b.x) pts

/-- The attachment phase of `translate`: when a visible, non-empty
reference series is configured, sort the flags and run the attachment
loop, and record the bar-centering `xOffset`; otherwise leave the
points untouched with `xOffset = 0` (source lines 296-332). -/
def attachPhase (env : ChartEnv) (pts : List FlagPoint) : List FlagPoint × ℚ :=
  match env.onSeries with
  | some os =>
    if os.visible = true ∧ os.points ≠ [] then
      (attachLoop os.points env.onKey os.step (lastXOf os) os.points.length
        ((sortPoints pts).length - 1) (sortPoints pts),
       xOffsetOf os)
    else (pts, 0)
  | none => (pts, 0)

/-! ## translate: axis fallback and stacking (lines 334-363) -/

/-- The axis-relative fallback y (source lines 346-348). -/
def fallbackY (env : ChartEnv) : ℚ :=
  env.chartHeight - env.xAxisBottom -
    (if env.xAxisOpposite then env.xAxisHeight else 0) +
    env.xAxisOffset - env.yAxisTop

/-- Per-point placement step of the stacking loop (source lines
343-353): points with undefined `plotY` get the axis fallback when
inside the x-axis extremes and an empty `shapeArgs` otherwise; every
point's `plotX` is shifted by `xOffset`. -/
def placePoint (env : ChartEnv) (xOffset : ℚ) (p : FlagPoint) : FlagPoint :=
  let p :=
    match p.plotY with
    | none =>
      if env.xAxisMin ≤ p.x ∧ p.x ≤ env.xAxisMax then
        { p with plotY := some (fallbackY env) }
      else { p with shapeArgs := ShapeArgs.empty }
    | some _ => p
  { p with plotX := p.plotX + xOffset }

/-- `if (lastPoint.stackIndex === undefined) lastPoint.stackIndex = 0`
(source lines 357-359). -/
def setRank0 (p : FlagPoint) : FlagPoint :=
  if p.stackIndex = none then { p with stackIndex := some 0 } else p

/-- The stack-rank assignment of the `each` loop (source lines 354-362),
carrying the previous point `lp` whose `stackIndex` the next iteration
may still mutate: when the next point shares `lp`'s `plotX`, `lp` is
ranked 0 if unranked and the next point gets `lp`'s rank plus one;
otherwise the next point's `stackIndex` is overwritten with `none`. -/
def rankRest (lp : FlagPoint) : List FlagPoint → List FlagPoint
  | [] => [lp]
  | p :: rest =>
    if lp.plotX = p.plotX then
      let lp' := setRank0 lp
      lp' :: rankRest { p with stackIndex := some (lp'.stackIndex.getD 0 + 1) } rest
    else
      lp :: rankRest { p with stackIndex := none } rest

/-- The full ranking pass over the (placed) points in final order. -/
def rankPass : List FlagPoint → List FlagPoint
  | [] => []
  | p :: rest => rankRest { p with stackIndex := none } rest

/-- `Series.prototype.translate` for the flags series (source lines
269-366), applied to the state after the inherited column translate:
attach to the reference series, then place, offset and stack. -/
def translate (env : ChartEnv) (pts : List FlagPoint) : List FlagPoint :=
  rankPass (((attachPhase env pts).1).map (placePoint env (attachPhase env pts).2))

/-! ## drawPoints (lines 371-477) -/

/-- JavaScript truthiness of `point.stackIndex` (`stackIndex ? … : …`,
source lines 402-403): true exactly for a defined, non-zero rank. -/
def stackTruthy : Option ℕ → Bool
  | some k => decide (k ≠ 0)
  | none => false

/-- `point.options.title || options.title || 'A'` for strings: an
absent or empty string falls through (source line 450). -/
def jsStringOr (o : Option String) (dflt : String) : String :=
  match o with
  | some s => if s = "" then dflt else s
  | none => dflt

/-- The displayed label text of a flag (source line 450). -/
def titleOf (seriesTitle pointTitle : Option String) : String :=
  jsStringOr pointTitle (jsStringOr seriesTitle "A")

/-- The per-point body of `drawPoints` (source lines 391-466): compute
the draw y (stored `plotY` plus the `y` option minus the stacking
offset), the connector anchors (suppressed for truthy `stackIndex`),
and either plant/update the graphic or destroy it when the point has no
y or lies outside the visible x range. -/
def drawPointOne (env : ChartEnv) (p : FlagPoint) : FlagPoint :=
  let outsideRight := decide (env.xAxisLen < p.plotX)
  let plotYDrawn : Option ℚ :=
    match p.plotY with
    | some py =>
      some (py + env.optionsY -
        (match p.stackIndex with
          | some k => (k : ℚ) * env.stackDistance
          | none => 0))
    | none => none
  let anchorX : Option ℚ := if stackTruthy p.stackIndex then none else some p.plotX
  let anchorY : Option ℚ := if stackTruthy p.stackIndex then none else p.plotY
  match plotYDrawn with
  | some yDrawn =>
    if 0 ≤ p.plotX ∧ outsideRight = false then
      let xDrawn := if 0 < p.plotX then p.plotX - env.strokeWidthMod2 else p.plotX
      let g : Graphic :=
        { text := titleOf env.title p.title,
          x := xDrawn,
          y := yDrawn,
          anchorX := anchorX,
          anchorY := anchorY }
      { p with graphic := some g }
    else { p with graphic := none }
  | none => { p with graphic := none }

/-- `drawPoints` over the series' points (the source iterates with
`i--`; each iteration only touches its own point). -/
def drawPoints (env : ChartEnv) (pts : List FlagPoint) : List FlagPoint :=
  pts.map (drawPointOne env)

/-! ## drawTracker's mouseover handler (lines 490-515) -/

/-- `point.stackIndex > 0` in JavaScript (`undefined > 0` is false). -/
def stackGT0 : Option ℕ → Bool
  | some k => decide (0 < k)
  | none => false

/-- The revert half of the handler (source lines 505-512): any *other*
point that is raised and still has a graphic is moved back to its
stored `_y` and marked unraised. -/
def revertOther (idx j : ℕ) (q : FlagPoint) : FlagPoint :=
  if j ≠ idx ∧ q.raised = true then
    match q.graphic with
    | some g => { q with graphic := some { g with y := q.origY.getD 0 }, raised := false }
    | none => q
  else q

/-- The `mouseover` listener installed by `drawTracker` on the graphic
of the point at index `idx` (source lines 493-513): raise a stacked,
not-yet-raised point by 8 pixels (remembering its original y in `_y`),
then revert every other raised point. -/
def mouseOver (pts : List FlagPoint) (idx : ℕ) : List FlagPoint :=
  match pts[idx]? with
  | none => pts
  | some point =>
    match point.graphic with
    | none => pts
    | some graphic =>
      let point' :=
        if stackGT0 point.stackIndex = true ∧ point.raised = false then
          { point with
              origY := some graphic.y,
              graphic := some { graphic with y := graphic.y - 8 },
              raised := true }
        else point
      (pts.set idx point').mapIdx (fun j q => revertOther idx j q)

/-! ## The circlepin symbol (lines 541-566) -/

/-- `Math.round`: round half away from zero is `floor (q + 1/2)` for
the nonnegative arguments arising here (JavaScript rounds half up). -/
def jsRound (q : ℚ) : ℤ :=
  Int.floor (q + 1 / 2)

/-- The geometry produced by a pin symbol: the rectangle handed to the
underlying `circle`/`square` symbol plus the optional connector segment
`(anchorX, labelTopOrBottomY, anchorY)`. -/
structure PinGeom where
  x : ℚ
  y : ℚ
  w : ℚ
  h : ℚ
  connector : Option (ℚ × ℚ × ℚ)
  deriving DecidableEq, Repr

/-- `symbols.circlepin` (source lines 542-565): widen the box to `h`
(shifting `x` left by the rounded half-difference) whenever the
requested height exceeds the width, then attach the connector line from
the label edge closest to the anchor when both anchors are truthy. -/
def circlepin (x y w h : ℚ) (anchorX anchorY : Option ℚ) : PinGeom :=
  let x' := if h > w then x - (jsRound ((h - w) / 2) : ℚ) else x
  let w' := if h > w then h else w
  let connector :=
    match anchorX, anchorY with
    | some ax, some ay =>
      if ax ≠ 0 ∧ ay ≠ 0 then
        some (ax, (if y > ay then y else y + h), ay)
      else none
    | _, _ => none
  { x := x', y := y, w := w', h := h, connector := connector }

/-! ## General lemmas about the ranking pass -/

/-- Forget the `stackIndex` of a point (the only field the ranking pass
writes). -/
def eraseStack (p : FlagPoint) : FlagPoint :=
  { p with stackIndex := none }

theorem eraseStack_setRank0 (p : FlagPoint) : eraseStack (setRank0 p) = eraseStack p := by
  unfold setRank0
  split <;> rfl

theorem plotX_setRank0 (p : FlagPoint) : (setRank0 p).plotX = p.plotX := by
  unfold setRank0
  split <;> rfl

theorem rankRest_map_eraseStack (rest : List FlagPoint) :
    ∀ lp, (rankRest lp rest).map eraseStack = eraseStack lp :: rest.map eraseStack := by
  induction rest with
  | nil => intro lp; rfl
  | cons p rest ih =>
    intro lp
    unfold rankRest
    split
    · simp only [List.map_cons, ih, eraseStack_setRank0]
      rfl
    · simp only [List.map_cons, ih]
      rfl

theorem rankPass_map_eraseStack (l : List FlagPoint) :
    (rankPass l).map eraseStack = l.map eraseStack := by
  cases l with
  | nil => rfl
  | cons p rest =>
    unfold rankPass
    rw [rankRest_map_eraseStack]
    rfl

theorem length_rankPass (l : List FlagPoint) : (rankPass l).length = l.length := by
  have h := congrArg List.length (rankPass_map_eraseStack l)
  simpa using h

theorem getElem?_rankPass_eraseStack (l : List FlagPoint) (j : ℕ) :
    ((rankPass l)[j]?).map eraseStack = (l[j]?).map eraseStack := by
  rw [← List.getElem?_map, ← List.getElem?_map, rankPass_map_eraseStack]

/-- Positional extraction: the ranking pass leaves every field but
`stackIndex` of every point unchanged. -/
theorem rankPass_getElem? (l : List FlagPoint) (j : ℕ) (p : FlagPoint)
    (h : l[j]? = some p) :
    ∃ q, (rankPass l)[j]? = some q ∧ eraseStack q = eraseStack p := by
  have h2 := getElem?_rankPass_eraseStack l j
  rw [h] at h2
  cases hq : (rankPass l)[j]? with
  | none => rw [hq] at h2; simp at h2
  | some q =>
    rw [hq] at h2
    exact ⟨q, rfl, by simpa using h2⟩

/-- Two points with equal `eraseStack` images agree on every field but
`stackIndex`. -/
theorem eraseStack_eq_iff {q p : FlagPoint} (h : eraseStack q = eraseStack p) :
    q.x = p.x ∧ q.plotX = p.plotX ∧ q.plotY = p.plotY ∧ q.shapeArgs = p.shapeArgs ∧
      q.title = p.title ∧ q.graphic = p.graphic ∧ q.raised = p.raised ∧ q.origY = p.origY := by
  cases q
  cases p
  simp only [eraseStack, FlagPoint.mk.injEq] at h
  simp_all

/-! ## General lemmas about drawPoints -/

/-- The draw pass never writes `plotY`: the stacking offset exists only
in the drawn graphic. -/
theorem plotY_drawPointOne (env : ChartEnv) (p : FlagPoint) :
    (drawPointOne env p).plotY = p.plotY := by
  unfold drawPointOne
  cases p.plotY <;> simp only [] <;> split <;> rfl

theorem stackIndex_drawPointOne (env : ChartEnv) (p : FlagPoint) :
    (drawPointOne env p).stackIndex = p.stackIndex := by
  unfold drawPointOne
  cases p.plotY <;> simp only [] <;> split <;> rfl

theorem plotX_drawPointOne (env : ChartEnv) (p : FlagPoint) :
    (drawPointOne env p).plotX = p.plotX := by
  unfold drawPointOne
  cases p.plotY <;> simp only [] <;> split <;> rfl

theorem drawPoints_map_plotY (env : ChartEnv) (pts : List FlagPoint) :
    (drawPoints env pts).map (·.plotY) = pts.map (·.plotY) := by
  unfold drawPoints
  rw [List.map_map]
  exact List.map_congr_left fun a _ => plotY_drawPointOne env a

/-- A point with undefined `plotY` never keeps a graphic: it is not
drawn, and a previously existing graphic is destroyed. -/
theorem drawPointOne_of_plotY_none (env : ChartEnv) (p : FlagPoint)
    (hy : p.plotY = none) :
    drawPointOne env p = { p with graphic := none } := by
  unfold drawPointOne
  rw [hy]

/-- When a point is drawn (its graphic survives `drawPoints`), the
graphic's attributes are exactly the ones planted at source lines
449-455. -/
theorem drawPointOne_graphic_some (env : ChartEnv) (p : FlagPoint) (g : Graphic)
    (hg : (drawPointOne env p).graphic = some g) :
    g.text = titleOf env.title p.title ∧
      g.anchorX = (if stackTruthy p.stackIndex then none else some p.plotX) ∧
      g.anchorY = (if stackTruthy p.stackIndex then none else p.plotY) ∧
      ∃ py, p.plotY = some py ∧
        g.y = py + env.optionsY -
          (match p.stackIndex with
            | some k => (k : ℚ) * env.stackDistance
            | none => 0) := by
  unfold drawPointOne at hg
  cases hy : p.plotY with
  | none => rw [hy] at hg; simp at hg
  | some py =>
    rw [hy] at hg
    simp only [] at hg
    split at hg
    · simp only [Option.some.injEq] at hg
      subst hg
      exact ⟨rfl, rfl, rfl, py, rfl, rfl⟩
    · simp at hg

/-- The drawn-branch condition of `drawPoints`: a point with a defined
`plotY` and `plotX` within `[0, xAxis.len]` gets a graphic. -/
theorem drawPointOne_drawn (env : ChartEnv) (p : FlagPoint) (py : ℚ)
    (hy : p.plotY = some py) (hx0 : 0 ≤ p.plotX) (hxlen : p.plotX ≤ env.xAxisLen) :
    ∃ g, (drawPointOne env p).graphic = some g := by
  unfold drawPointOne
  rw [hy]
  simp only [decide_eq_false (not_lt.mpr hxlen)]
  rw [if_pos ⟨hx0, by trivial⟩]
  exact ⟨_, rfl⟩

/-! ## C5: stacking offset applied only at draw time -/

/-- C5: the stacking offset is applied only at draw time and never
mutates the stored `plotY`: a stacked point with rank `k` draws at
`plotY + options.y - k * stackDistance`, while `point.plotY` remains
the unstacked baseline after `drawPoints` (for every point of the
series). -/
theorem C5_stack_offset_draw_time_only (env : ChartEnv) (pts : List FlagPoint)
    (j k : ℕ) (p : FlagPoint) (py : ℚ)
    (hp : pts[j]? = some p) (hy : p.plotY = some py) (hk : p.stackIndex = some k)
    (hx0 : 0 ≤ p.plotX) (hxlen : p.plotX ≤ env.xAxisLen) :
    (∃ q g, (drawPoints env pts)[j]? = some q ∧ q.graphic = some g ∧
      g.y = py + env.optionsY - (k : ℚ) * env.stackDistance ∧
      q.plotY = some py) ∧
    (drawPoints env pts).map (·.plotY) = pts.map (·.plotY) := by
  refine ⟨?_, drawPoints_map_plotY env pts⟩
  have hq : (drawPoints env pts)[j]? = some (drawPointOne env p) := by
    unfold drawPoints
    rw [List.getElem?_map, hp, Option.map_some']
  obtain ⟨g, hg⟩ := drawPointOne_drawn env p py hy hx0 hxlen
  obtain ⟨-, -, -, py', hpy', hgy⟩ := drawPointOne_graphic_some env p g hg
  rw [hy] at hpy'
  injection hpy' with hpy'
  subst hpy'
  refine ⟨drawPointOne env p, g, hq, hg, ?_, ?_⟩
  · rw [hgy, hk]
  · rw [plotY_drawPointOne, hy]

/-- C5 witness: a rank-2 flag with baseline 100, default `y = -30` and
default `stackDistance = 12` draws at `100 - 30 - 24 = 46` while its
stored `plotY` stays 100. -/
theorem C5_witness :
    ∃ q g,
      (drawPoints { } [ { x := 50, plotX := 50, plotY := some 100, stackIndex := some 2 } ])[0]?
        = some q ∧
      q.graphic = some g ∧
      g.y = 100 + (-30) - (2 : ℚ) * 12 ∧
      q.plotY = some 100 := by
  have h := C5_stack_offset_draw_time_only { }
    [ { x := 50, plotX := 50, plotY := some 100, stackIndex := some 2 } ]
    0 2 { x := 50, plotX := 50, plotY := some 100, stackIndex := some 2 } 100
    rfl rfl rfl (by norm_num) (by norm_num)
  exact h.1

/-! ## C6: anchors suppressed above rank 0 -/

/-- C6: in `drawPoints`, a point whose `stackIndex` is greater than 0
has both connector anchors suppressed (`undefined`), while a rank-0 (or
unranked) point that keeps a graphic retains defined `anchorX` and
`anchorY`. -/
theorem C6_anchor_only_rank0 (env : ChartEnv) (pts : List FlagPoint) :
    ∀ q ∈ drawPoints env pts, ∀ g, q.graphic = some g →
      ((∃ k, q.stackIndex = some k ∧ 0 < k) → g.anchorX = none ∧ g.anchorY = none) ∧
      ((q.stackIndex = none ∨ q.stackIndex = some 0) →
        g.anchorX = some q.plotX ∧ g.anchorY ≠ none) := by
  intro q hq g hg
  obtain ⟨p, hp, rfl⟩ := List.mem_map.mp hq
  obtain ⟨-, hax, hay, py, hpy, -⟩ := drawPointOne_graphic_some env p g hg
  constructor
  · rintro ⟨k, hk, hkpos⟩
    rw [stackIndex_drawPointOne] at hk
    have ht : stackTruthy p.stackIndex = true := by
      rw [hk]
      simpa [stackTruthy] using Nat.pos_iff_ne_zero.mp hkpos
    rw [ht] at hax hay
    exact ⟨by simpa using hax, by simpa using hay⟩
  · intro hrank0
    rw [stackIndex_drawPointOne] at hrank0
    have ht : stackTruthy p.stackIndex = false := by
      rcases hrank0 with h0 | h0 <;> rw [h0] <;> simp [stackTruthy]
    rw [ht] at hax hay
    simp at hax hay
    refine ⟨by rw [hax, plotX_drawPointOne], ?_⟩
    rw [hay, hpy]
    exact Option.some_ne_none py

/-- C6 witness: two flags at the same pixel x, ranks 0 and 1 — the
rank-1 point's anchors are suppressed, the rank-0 point keeps both. -/
theorem C6_witness :
    (∀ q ∈ drawPoints { }
        [ { x := 50, plotX := 50, plotY := some 100, stackIndex := some 1 } ],
      ∀ g, q.graphic = some g → g.anchorX = none ∧ g.anchorY = none) ∧
    (∀ q ∈ drawPoints { }
        [ { x := 50, plotX := 50, plotY := some 100, stackIndex := some 0 } ],
      ∀ g, q.graphic = some g → g.anchorX = some q.plotX ∧ g.anchorY ≠ none) := by
  constructor
  · intro q hq g hg
    exact (C6_anchor_only_rank0 { } _ q hq g hg).1 ⟨1, by
      have := stackIndex_drawPointOne ({ } : ChartEnv)
        { x := 50, plotX := 50, plotY := some 100, stackIndex := some 1 }
      simp only [drawPoints, List.mem_map] at hq
      obtain ⟨p, hp, rfl⟩ := hq
      simp only [List.mem_singleton] at hp
      subst hp
      rw [stackIndex_drawPointOne], Nat.zero_lt_one⟩
  · intro q hq g hg
    refine (C6_anchor_only_rank0 { } _ q hq g hg).2 (Or.inr ?_)
    simp only [drawPoints, List.mem_map] at hq
    obtain ⟨p, hp, rfl⟩ := hq
    simp only [List.mem_singleton] at hp
    subst hp
    rw [stackIndex_drawPointOne]

/-! ## C9: circlepin never taller than wide -/

/-- C9 counterexample: `circlepin` with `w = 10`, `h = 11` shifts `x`
by `Math.round((11-10)/2) = 1`, not by the exact half-difference `1/2`
the claim states. -/
theorem C9_counterexample :
    (circlepin 0 0 10 11 none none).x ≠ 0 - (11 - 10) / 2 ∧
      (circlepin 0 0 10 11 none none).x = -1 := by
  constructor
  · norm_num [circlepin, jsRound]
  · norm_num [circlepin, jsRound]

/-- C9 (amended): the produced shape is never taller than wide; when
`h > w` the width is widened to `h` (so width = height) and `x` is
shifted left by the *rounded* half-difference `Math.round((h-w)/2)`. -/
theorem C9_circlepin_width_constrained (x y w h : ℚ) (ax ay : Option ℚ) :
    (circlepin x y w h ax ay).h ≤ (circlepin x y w h ax ay).w ∧
    (w < h →
      (circlepin x y w h ax ay).w = h ∧
      (circlepin x y w h ax ay).w = (circlepin x y w h ax ay).h ∧
      (circlepin x y w h ax ay).x = x - (jsRound ((h - w) / 2) : ℚ)) := by
  by_cases hwh : w < h
  · constructor
    · simp [circlepin, hwh]
    · intro hc
      refine ⟨?_, ?_, ?_⟩ <;> simp [circlepin, hwh]
  · have hle : h ≤ w := not_lt.mp hwh
    constructor
    · simpa [circlepin, hwh] using hle
    · intro hc
      exact absurd hc hwh

/-- C9 witness: at `w = 10`, `h = 11` the result is an 11×11 box with
`x` shifted by the rounded half-difference. -/
theorem C9_witness :
    (circlepin 0 0 10 11 none none).h ≤ (circlepin 0 0 10 11 none none).w ∧
      (circlepin 0 0 10 11 none none).w = 11 ∧
      (circlepin 0 0 10 11 none none).x = 0 - (jsRound ((11 - 10) / 2) : ℚ) := by
  have h := C9_circlepin_width_constrained 0 0 10 11 none none
  have h2 := h.2 (by norm_num)
  exact ⟨h.1, h2.1, h2.2.2⟩

/-! ## C10: the title fallback chain -/

/-- C10 counterexample: a point whose own `title` option is set to the
empty string does not display it — the chain falls through to the
series title, because JavaScript `||` treats `""` as falsy. -/
theorem C10_counterexample :
    ((drawPointOne { title := some "S" }
        { x := 1, plotX := 5, plotY := some 20, title := some "" }).graphic).map (·.text)
      = some "S" ∧ ("S" : String) ≠ "" := by
  constructor
  · decide
  · decide

/-- C10 (amended): the displayed label text follows the fallback chain
`point.options.title || options.title || "A"` where an *absent or
empty* string falls through: the point's own title when set non-empty,
otherwise the series title when set non-empty, otherwise `"A"`. -/
theorem C10_title_fallback_chain (env : ChartEnv) (p : FlagPoint) (g : Graphic)
    (hg : (drawPointOne env p).graphic = some g) :
    g.text = titleOf env.title p.title ∧
    (∀ t, p.title = some t → t ≠ "" → g.text = t) ∧
    ((p.title = none ∨ p.title = some "") →
      ∀ s, env.title = some s → s ≠ "" → g.text = s) ∧
    ((p.title = none ∨ p.title = some "") →
      (env.title = none ∨ env.title = some "") → g.text = "A") := by
  obtain ⟨htext, -, -, -⟩ := drawPointOne_graphic_some env p g hg
  refine ⟨htext, ?_, ?_, ?_⟩
  · intro t ht hne
    rw [htext, ht]
    unfold titleOf jsStringOr
    simp [hne]
  · rintro (h0 | h0) s hs hne <;>
      rw [htext, h0, hs] <;> unfold titleOf jsStringOr <;> simp [hne]
  · rintro (h0 | h0) (h1 | h1) <;>
      rw [htext, h0, h1] <;> unfold titleOf jsStringOr <;> simp

/-- C10 witness: a drawn flag with point title `"P"` displays `"P"`. -/
theorem C10_witness :
    ∃ g, (drawPointOne { title := some "S" }
        { x := 1, plotX := 5, plotY := some 20, title := some "P" }).graphic = some g ∧
      g.text = "P" := by
  obtain ⟨g, hg⟩ := drawPointOne_drawn { title := some "S" }
    { x := 1, plotX := 5, plotY := some 20, title := some "P" } 20 rfl (by norm_num)
    (by norm_num)
  exact ⟨g, hg, (C10_title_fallback_chain _ _ g hg).2.1 "P" rfl (by decide)⟩

/-! ## C7: out-of-range unattached points are non-renderable -/

/-- C7: an unattached flag whose x lies outside the visible axis
extremes keeps an undefined `plotY` after `translate`, gets an empty
`shapeArgs`, and `drawPoints` never creates (and always destroys) its
graphic. -/
theorem C7_outside_extremes_not_rendered (env : ChartEnv) (pts : List FlagPoint)
    (c : ℕ) (p : FlagPoint)
    (hons : env.onSeries = none) (hp : pts[c]? = some p) (hpy : p.plotY = none)
    (hout : ¬(env.xAxisMin ≤ p.x ∧ p.x ≤ env.xAxisMax)) :
    ∃ q, (translate env pts)[c]? = some q ∧ q.plotY = none ∧
      q.shapeArgs = ShapeArgs.empty ∧
      ∀ env2 : ChartEnv, (drawPointOne env2 q).graphic = none := by
  have hplace : placePoint env 0 p = { p with shapeArgs := ShapeArgs.empty, plotX := p.plotX + 0 } := by
    unfold placePoint
    rw [hpy]
    simp only [if_neg hout]
  have htr : translate env pts = rankPass (pts.map (placePoint env 0)) := by
    unfold translate attachPhase
    rw [hons]
  have hmap : (pts.map (placePoint env 0))[c]? = some (placePoint env 0 p) := by
    rw [List.getElem?_map, hp, Option.map_some']
  obtain ⟨q, hq, herase⟩ := rankPass_getElem? _ c _ hmap
  obtain ⟨-, -, hqy, hqsh, -, -, -, -⟩ := eraseStack_eq_iff herase
  refine ⟨q, by rw [htr]; exact hq, ?_, ?_, ?_⟩
  · rw [hqy, hplace, hpy]
  · rw [hqsh, hplace]
  · intro env2
    have : q.plotY = none := by rw [hqy, hplace, hpy]
    rw [drawPointOne_of_plotY_none env2 q this]

/-- C7 witness: a flag at `x = 200` with extremes `[0, 100]`, no
reference series, and a pre-existing graphic: `translate` marks it
non-renderable and `drawPoints` yields no graphic. -/
theorem C7_witness :
    ∃ q, (translate { xAxisMin := 0, xAxisMax := 100 }
        [ { x := 200, plotX := 300, graphic := some { } } ])[0]? = some q ∧
      q.plotY = none ∧ q.shapeArgs = ShapeArgs.empty ∧
      ∀ env2 : ChartEnv, (drawPointOne env2 q).graphic = none := by
  exact C7_outside_extremes_not_rendered { xAxisMin := 0, xAxisMax := 100 }
    [ { x := 200, plotX := 300, graphic := some { } } ] 0
    { x := 200, plotX := 300, graphic := some { } }
    rfl rfl rfl (by norm_num)

/-! ## C8: the mouseover raise/revert interaction -/

/-- C8: under the mouseover handler installed by `drawTracker`, a
stacked (rank > 0), not-yet-raised point with a graphic is raised by
exactly 8 pixels (its original y stored in `_y`), every other raised
point with a graphic is reverted to its stored `_y`, and afterwards at
most one point of the series is raised. -/
theorem C8_mouseover_raise_revert (pts : List FlagPoint) (idx : ℕ)
    (p : FlagPoint) (g : Graphic) (k : ℕ)
    (hp : pts[idx]? = some p) (hg : p.graphic = some g)
    (hk : p.stackIndex = some k) (hkpos : 0 < k) (hnr : p.raised = false)
    (hgr : ∀ q ∈ pts, q.raised = true → q.graphic.isSome = true) :
    ((mouseOver pts idx)[idx]? = some
      { p with origY := some g.y, graphic := some { g with y := g.y - 8 }, raised := true }) ∧
    (∀ j q, j ≠ idx → pts[j]? = some q → q.raised = true →
      ∃ g', q.graphic = some g' ∧ (mouseOver pts idx)[j]? = some
        { q with graphic := some { g' with y := q.origY.getD 0 }, raised := false }) ∧
    (∀ (j j' : ℕ) (r r' : FlagPoint),
      (mouseOver pts idx)[j]? = some r → (mouseOver pts idx)[j']? = some r' →
      r.raised = true → r'.raised = true → j = j') := by
  have hidx : idx < pts.length := (List.getElem?_eq_some_iff.mp hp).1
  have htr : stackGT0 p.stackIndex = true := by
    rw [hk]
    simpa [stackGT0] using hkpos
  have hmo : mouseOver pts idx = (pts.set idx
      { p with origY := some g.y, graphic := some { g with y := g.y - 8 }, raised := true }).mapIdx
      (fun j q => revertOther idx j q) := by
    simp only [mouseOver, hp, hg]
    rw [if_pos ⟨htr, hnr⟩]
  refine ⟨?_, ?_, ?_⟩
  · rw [hmo, List.getElem?_mapIdx, List.getElem?_set_self hidx, Option.map_some']
    simp [revertOther]
  · intro j q hj hq hraised
    obtain ⟨g', hg'⟩ := Option.isSome_iff_exists.mp
      (hgr q (List.getElem?_mem hq) hraised)
    refine ⟨g', hg', ?_⟩
    rw [hmo, List.getElem?_mapIdx, List.getElem?_set_ne (fun h => hj h.symm), hq,
      Option.map_some']
    unfold revertOther
    rw [if_pos ⟨hj, hraised⟩, hg']
  · intro j j' r r' hr hr' hrr hrr'
    by_contra hne
    -- at least one of j, j' differs from idx; a point at an index ≠ idx is never raised
    have key : ∀ a b, (mouseOver pts idx)[a]? = some b → b.raised = true → a = idx := by
      intro a b hb hbr
      by_contra ha
      rw [hmo, List.getElem?_mapIdx, List.getElem?_set_ne (fun h => ha h.symm)] at hb
      cases hb0 : pts[a]? with
      | none => rw [hb0] at hb; simp at hb
      | some b0 =>
        rw [hb0, Option.map_some'] at hb
        injection hb with hb
        subst hb
        unfold revertOther at hbr
        by_cases hbraised : b0.raised = true
        · rw [if_pos ⟨fun h => ha h, hbraised⟩] at hbr
          obtain ⟨gb, hgb⟩ := Option.isSome_iff_exists.mp
            (hgr b0 (List.getElem?_mem hb0) hbraised)
          rw [hgb] at hbr
          simp at hbr
        · rw [if_neg (by simp [hbraised])] at hbr
          exact hbraised hbr
    have h1 := key j r hr hrr
    have h2 := key j' r' hr' hrr'
    exact hne (h1.trans h2.symm)

/-- C8 witness: a two-point series — mousing over the rank-1 point at
index 0 raises it 8 pixels and reverts the previously raised point at
index 1 to its stored y 7. -/
theorem C8_witness :
    ((mouseOver
        [ { x := 1, plotX := 5, stackIndex := some 1, graphic := some { y := 3 } },
          { x := 1, plotX := 5, raised := true, origY := some 7, graphic := some { y := 1 } } ]
        0)[0]? = some
      { x := 1, plotX := 5, stackIndex := some 1, origY := some 3,
        graphic := some { y := 3 - 8 }, raised := true }) ∧
    (∀ (j j' : ℕ) (r r' : FlagPoint),
      (mouseOver
        [ { x := 1, plotX := 5, stackIndex := some 1, graphic := some { y := 3 } },
          { x := 1, plotX := 5, raised := true, origY := some 7, graphic := some { y := 1 } } ]
        0)[j]? = some r →
      (mouseOver
        [ { x := 1, plotX := 5, stackIndex := some 1, graphic := some { y := 3 } },
          { x := 1, plotX := 5, raised := true, origY := some 7, graphic := some { y := 1 } } ]
        0)[j']? = some r' →
      r.raised = true → r'.raised = true → j = j') := by
  have h := C8_mouseover_raise_revert
    [ { x := 1, plotX := 5, stackIndex := some 1, graphic := some { y := 3 } },
      { x := 1, plotX := 5, raised := true, origY := some 7, graphic := some { y := 1 } } ]
    0 { x := 1, plotX := 5, stackIndex := some 1, graphic := some { y := 3 } } { y := 3 } 1
    rfl rfl rfl (by norm_num) rfl
    (by decide)
  exact ⟨h.1, h.2.2⟩

/-! ## C4: characterization of stackIndex after translate -/

theorem setRank0_stackIndex (p : FlagPoint) :
    (setRank0 p).stackIndex = some (p.stackIndex.getD 0) := by
  unfold setRank0
  cases h : p.stackIndex <;> simp [h]

theorem setRank0_of_ne_none {p : FlagPoint} (h : ¬p.stackIndex = none) :
    setRank0 p = p := by
  unfold setRank0
  rw [if_neg h]

/-- The first element of `rankRest lp rest` is `lp`, possibly ranked 0
by the next iteration's mutation; its `plotX` is `lp`'s. -/
theorem rankRest_head (lp : FlagPoint) (rest : List FlagPoint) :
    ∃ q tl, rankRest lp rest = q :: tl ∧ q.plotX = lp.plotX ∧
      (q = lp ∨ q = setRank0 lp) := by
  cases rest with
  | nil => exact ⟨lp, [], rfl, rfl, Or.inl rfl⟩
  | cons p rest' =>
    unfold rankRest
    by_cases h : lp.plotX = p.plotX
    · rw [if_pos h]
      exact ⟨setRank0 lp, _, rfl, plotX_setRank0 lp, Or.inr rfl⟩
    · rw [if_neg h]
      exact ⟨lp, _, rfl, rfl, Or.inl rfl⟩

/-- Unfolding equation for the matched branch of `rankRest`. -/
theorem rankRest_cons_match {lp p0 : FlagPoint} (rest' : List FlagPoint)
    (h : lp.plotX = p0.plotX) :
    rankRest lp (p0 :: rest') =
      setRank0 lp :: rankRest
        { p0 with stackIndex := some ((setRank0 lp).stackIndex.getD 0 + 1) } rest' := by
  conv_lhs => rw [rankRest]
  rw [if_pos h]

/-- Unfolding equation for the unmatched branch of `rankRest`. -/
theorem rankRest_cons_nomatch {lp p0 : FlagPoint} (rest' : List FlagPoint)
    (h : ¬lp.plotX = p0.plotX) :
    rankRest lp (p0 :: rest') =
      lp :: rankRest { p0 with stackIndex := none } rest' := by
  conv_lhs => rw [rankRest]
  rw [if_neg h]


theorem rankRest_defined_iff (rest : List FlagPoint) :
    ∀ (lp : FlagPoint) (j : ℕ) (p : FlagPoint),
      (rankRest lp rest)[j]? = some p →
      (¬p.stackIndex = none ↔
        (if j = 0 then ¬lp.stackIndex = none
         else ∃ q, (rankRest lp rest)[j-1]? = some q ∧ q.plotX = p.plotX) ∨
        (∃ q, (rankRest lp rest)[j+1]? = some q ∧ q.plotX = p.plotX)) := by
  induction rest with
  | nil =>
    intro lp j p hp
    rcases j with _ | j'
    · simp only [rankRest, List.getElem?_cons_zero, Option.some.injEq] at hp
      subst hp
      simp [rankRest]
    · simp [rankRest] at hp
  | cons p0 rest' ih =>
    intro lp j p hp
    by_cases hmatch : lp.plotX = p0.plotX
    case pos =>
      rw [rankRest_cons_match rest' hmatch] at hp ⊢
      obtain ⟨hd', tl', hhd', hhdx', hor'⟩ := rankRest_head
        { p0 with stackIndex := some ((setRank0 lp).stackIndex.getD 0 + 1) } rest'
      rcases j with _ | j'
      · rw [List.getElem?_cons_zero, Option.some.injEq] at hp
        subst hp
        constructor
        · intro _
          exact Or.inr ⟨hd', by simp [hhd'], by rw [hhdx', plotX_setRank0, hmatch]⟩
        · intro _
          rw [setRank0_stackIndex]
          exact Option.some_ne_none _
      · rw [List.getElem?_cons_succ] at hp
        rw [ih _ j' p hp]
        rcases j' with _ | j''
        · -- position 1: predecessor is the head setRank0 lp
          have hp' : p = hd' := by
            rw [hhd', List.getElem?_cons_zero, Option.some.injEq] at hp
            exact hp.symm
          have h1 : ¬({ p0 with
              stackIndex := some ((setRank0 lp).stackIndex.getD 0 + 1) } : FlagPoint).stackIndex
                = none := Option.some_ne_none _
          have h2 : (setRank0 lp).plotX = p.plotX := by
            rw [hp', hhdx', plotX_setRank0, hmatch]
          simp only [Nat.sub_self, List.getElem?_cons_zero, List.getElem?_cons_succ]
          constructor
          · intro _
            left
            exact ⟨setRank0 lp, rfl, h2⟩
          · intro _
            left
            exact h1
        · simp only [Nat.add_sub_cancel, List.getElem?_cons_succ,
            Nat.succ_ne_zero, if_false]
    case neg =>
      rw [rankRest_cons_nomatch rest' hmatch] at hp ⊢
      obtain ⟨hd', tl', hhd', hhdx', hor'⟩ := rankRest_head
        { p0 with stackIndex := none } rest'
      rcases j with _ | j'
      · rw [List.getElem?_cons_zero, Option.some.injEq] at hp
        subst hp
        constructor
        · intro hne
          exact Or.inl hne
        · rintro (hne | ⟨q, hq, hqx⟩)
          · exact hne
          · rw [List.getElem?_cons_succ, hhd', List.getElem?_cons_zero,
              Option.some.injEq] at hq
            subst hq
            rw [hhdx'] at hqx
            exact absurd hqx.symm hmatch
      · rw [List.getElem?_cons_succ] at hp
        rw [ih _ j' p hp]
        rcases j' with _ | j''
        · have hp' : p = hd' := by
            rw [hhd', List.getElem?_cons_zero, Option.some.injEq] at hp
            exact hp.symm
          simp only [Nat.sub_self, List.getElem?_cons_zero, List.getElem?_cons_succ]
          constructor
          · rintro (hcar | hnext)
            · simp at hcar
            · exact Or.inr hnext
          · rintro (⟨q, hq, hqx⟩ | hnext)
            · rw [Option.some.injEq] at hq
              subst hq
              rw [hp', hhdx'] at hqx
              exact absurd hqx hmatch
            · exact Or.inr hnext
        · simp only [Nat.add_sub_cancel, List.getElem?_cons_succ,
            Nat.succ_ne_zero, if_false]


/-- When two adjacent points of the ranked output share `plotX`, the
later one's rank is the earlier one's plus one. -/
theorem rankRest_succ_rank (rest : List FlagPoint) :
    ∀ (lp : FlagPoint) (j : ℕ) (p q : FlagPoint),
      (rankRest lp rest)[j]? = some p → (rankRest lp rest)[j+1]? = some q →
      p.plotX = q.plotX → ∃ k, p.stackIndex = some k ∧ q.stackIndex = some (k + 1) := by
  induction rest with
  | nil =>
    intro lp j p q hp hq _
    rcases j with _ | j' <;> simp [rankRest] at hq
  | cons p0 rest' ih =>
    intro lp j p q hp hq hx
    by_cases hmatch : lp.plotX = p0.plotX
    case pos =>
      rw [rankRest_cons_match rest' hmatch] at hp hq
      rcases j with _ | j'
      · rw [List.getElem?_cons_zero, Option.some.injEq] at hp
        subst hp
        rw [List.getElem?_cons_succ] at hq
        obtain ⟨hd', tl', hhd', hhdx', hor'⟩ := rankRest_head
          { p0 with stackIndex := some ((setRank0 lp).stackIndex.getD 0 + 1) } rest'
        have hq' : q = hd' := by
          rw [hhd', List.getElem?_cons_zero, Option.some.injEq] at hq
          exact hq.symm
        have hXs : ({ p0 with
            stackIndex := some ((setRank0 lp).stackIndex.getD 0 + 1) } : FlagPoint).stackIndex
              = some (lp.stackIndex.getD 0 + 1) := by
          show some ((setRank0 lp).stackIndex.getD 0 + 1) = some (lp.stackIndex.getD 0 + 1)
          rw [setRank0_stackIndex]
          rfl
        have hhds : hd'.stackIndex = some (lp.stackIndex.getD 0 + 1) := by
          rcases hor' with h | h
          · rw [h]; exact hXs
          · rw [h, setRank0_of_ne_none (by rw [hXs]; exact Option.some_ne_none _)]
            exact hXs
        exact ⟨lp.stackIndex.getD 0, setRank0_stackIndex lp, by rw [hq']; exact hhds⟩
      · rw [List.getElem?_cons_succ] at hp hq
        exact ih _ j' p q hp hq hx
    case neg =>
      rw [rankRest_cons_nomatch rest' hmatch] at hp hq
      rcases j with _ | j'
      · rw [List.getElem?_cons_zero, Option.some.injEq] at hp
        subst hp
        rw [List.getElem?_cons_succ] at hq
        obtain ⟨hd', tl', hhd', hhdx', -⟩ := rankRest_head { p0 with stackIndex := none } rest'
        have hq' : q = hd' := by
          rw [hhd', List.getElem?_cons_zero, Option.some.injEq] at hq
          exact hq.symm
        rw [hq', hhdx'] at hx
        exact absurd hx hmatch
      · rw [List.getElem?_cons_succ] at hp hq
        exact ih _ j' p q hp hq hx

/-- The first point of a coincident run (its successor shares its
`plotX` but its predecessor — or the carried `lp` rank — does not) ends
with rank 0. -/
theorem rankRest_run_start (rest : List FlagPoint) :
    ∀ (lp : FlagPoint) (j : ℕ) (p q : FlagPoint),
      (rankRest lp rest)[j]? = some p → (rankRest lp rest)[j+1]? = some q →
      q.plotX = p.plotX →
      (if j = 0 then lp.stackIndex = none
       else ∀ r, (rankRest lp rest)[j-1]? = some r → ¬r.plotX = p.plotX) →
      p.stackIndex = some 0 := by
  induction rest with
  | nil =>
    intro lp j p q hp hq _ _
    rcases j with _ | j' <;> simp [rankRest] at hq
  | cons p0 rest' ih =>
    intro lp j p q hp hq hx hpred
    by_cases hmatch : lp.plotX = p0.plotX
    case pos =>
      rw [rankRest_cons_match rest' hmatch] at hp hq hpred
      rcases j with _ | j'
      · rw [List.getElem?_cons_zero, Option.some.injEq] at hp
        subst hp
        rw [if_pos rfl] at hpred
        rw [setRank0_stackIndex, hpred]
        rfl
      · rw [List.getElem?_cons_succ] at hp hq
        refine ih _ j' p q hp hq hx ?_
        rcases j' with _ | j''
        · rw [if_pos rfl]
          exfalso
          rw [if_neg (Nat.succ_ne_zero 0)] at hpred
          have hr := hpred (setRank0 lp) (by simp)
          obtain ⟨hd', tl', hhd', hhdx', -⟩ := rankRest_head
            { p0 with stackIndex := some ((setRank0 lp).stackIndex.getD 0 + 1) } rest'
          have hp' : p = hd' := by
            rw [hhd', List.getElem?_cons_zero, Option.some.injEq] at hp
            exact hp.symm
          apply hr
          rw [plotX_setRank0, hmatch, hp', hhdx']
        · rw [if_neg (Nat.succ_ne_zero j'')]
          rw [if_neg (Nat.succ_ne_zero (j'' + 1))] at hpred
          intro r hr
          apply hpred r
          rw [Nat.add_sub_cancel] at hr ⊢
          rw [List.getElem?_cons_succ]
          exact hr
    case neg =>
      rw [rankRest_cons_nomatch rest' hmatch] at hp hq hpred
      rcases j with _ | j'
      · rw [List.getElem?_cons_zero, Option.some.injEq] at hp
        subst hp
        rw [List.getElem?_cons_succ] at hq
        obtain ⟨hd', tl', hhd', hhdx', -⟩ := rankRest_head { p0 with stackIndex := none } rest'
        have hq' : q = hd' := by
          rw [hhd', List.getElem?_cons_zero, Option.some.injEq] at hq
          exact hq.symm
        rw [hq', hhdx'] at hx
        exact absurd hx.symm hmatch
      · rw [List.getElem?_cons_succ] at hp hq
        refine ih _ j' p q hp hq hx ?_
        rcases j' with _ | j''
        · rw [if_pos rfl]
        · rw [if_neg (Nat.succ_ne_zero j'')]
          rw [if_neg (Nat.succ_ne_zero (j'' + 1))] at hpred
          intro r hr
          apply hpred r
          rw [Nat.add_sub_cancel] at hr ⊢
          rw [List.getElem?_cons_succ]
          exact hr


theorem rankPass_defined_iff (l : List FlagPoint) (j : ℕ) (p : FlagPoint)
    (hp : (rankPass l)[j]? = some p) :
    (¬p.stackIndex = none ↔
      (j ≠ 0 ∧ ∃ q, (rankPass l)[j-1]? = some q ∧ q.plotX = p.plotX) ∨
      (∃ q, (rankPass l)[j+1]? = some q ∧ q.plotX = p.plotX)) := by
  cases l with
  | nil => simp [rankPass] at hp
  | cons x rest =>
    have heq : rankPass (x :: rest) = rankRest { x with stackIndex := none } rest := rfl
    rw [heq] at hp ⊢
    rw [rankRest_defined_iff rest _ j p hp]
    rcases j with _ | j'
    · constructor
      · rintro (hc | hnext)
        · simp at hc
        · exact Or.inr hnext
      · rintro (⟨hj, -⟩ | hnext)
        · exact absurd rfl hj
        · exact Or.inr hnext
    · simp only [if_neg (Nat.succ_ne_zero j')]
      constructor
      · rintro (hpred | hnext)
        · exact Or.inl ⟨Nat.succ_ne_zero j', hpred⟩
        · exact Or.inr hnext
      · rintro (⟨-, hpred⟩ | hnext)
        · exact Or.inl hpred
        · exact Or.inr hnext

theorem rankPass_succ_rank (l : List FlagPoint) (j : ℕ) (p q : FlagPoint)
    (hp : (rankPass l)[j]? = some p) (hq : (rankPass l)[j+1]? = some q)
    (hx : p.plotX = q.plotX) :
    ∃ k, p.stackIndex = some k ∧ q.stackIndex = some (k + 1) := by
  cases l with
  | nil => simp [rankPass] at hp
  | cons x rest =>
    exact rankRest_succ_rank rest _ j p q hp hq hx

theorem rankPass_run_start (l : List FlagPoint) (j : ℕ) (p q : FlagPoint)
    (hp : (rankPass l)[j]? = some p) (hq : (rankPass l)[j+1]? = some q)
    (hx : q.plotX = p.plotX)
    (hpred : j = 0 ∨ ∀ r, (rankPass l)[j-1]? = some r → ¬r.plotX = p.plotX) :
    p.stackIndex = some 0 := by
  cases l with
  | nil => simp [rankPass] at hp
  | cons x rest =>
    have heq : rankPass (x :: rest) = rankRest { x with stackIndex := none } rest := rfl
    rw [heq] at hp hq
    refine rankRest_run_start rest _ j p q hp hq hx ?_
    rcases j with _ | j'
    · rw [if_pos rfl]
    · rw [if_neg (Nat.succ_ne_zero j')]
      rcases hpred with h0 | hpred
      · exact absurd h0 (Nat.succ_ne_zero j')
      · intro r hr
        refine hpred r ?_
        rw [heq]
        exact hr

/-- C4 (amended): after `translate`, a point's `stackIndex` is defined
iff an *adjacent* point in final order shares its pixel `plotX` (the
immediately preceding or the immediately following one — the first
point of a coincident group is itself assigned rank 0 by the
processing of its successor); when the immediately preceding point
shares the `plotX`, the point's rank is the predecessor's plus one, and
the first point of each coincident group ends with rank 0. -/
theorem C4_stackIndex_stacking (env : ChartEnv) (pts : List FlagPoint)
    (j : ℕ) (p : FlagPoint) (hp : (translate env pts)[j]? = some p) :
    (¬p.stackIndex = none ↔
      (j ≠ 0 ∧ ∃ q, (translate env pts)[j-1]? = some q ∧ q.plotX = p.plotX) ∨
      (∃ q, (translate env pts)[j+1]? = some q ∧ q.plotX = p.plotX)) ∧
    (∀ q, (translate env pts)[j+1]? = some q → p.plotX = q.plotX →
      ∃ k, p.stackIndex = some k ∧ q.stackIndex = some (k + 1)) ∧
    (∀ q, (translate env pts)[j+1]? = some q → q.plotX = p.plotX →
      (j = 0 ∨ ∀ r, (translate env pts)[j-1]? = some r → ¬r.plotX = p.plotX) →
      p.stackIndex = some 0) := by
  have heq : translate env pts = rankPass (((attachPhase env pts).1).map
      (placePoint env (attachPhase env pts).2)) := rfl
  rw [heq] at hp ⊢
  exact ⟨rankPass_defined_iff _ j p hp,
    fun q hq hx => rankPass_succ_rank _ j p q hp hq hx,
    fun q hq hx hpred => rankPass_run_start _ j p q hp hq hx hpred⟩

/-- Two flags on the same pixel x, no reference series: the concrete
input of the C4 counterexample and witness. -/
def stackPts : List FlagPoint := [ { x := 1, plotX := 5 }, { x := 1, plotX := 5 } ]

/-- C4 counterexample: for two flags at the same pixel x the *first*
point ends with `stackIndex = 0` — defined — although it has no
preceding point at all, refuting "stackIndex is defined iff the
immediately preceding point has the same pixel plotX". -/
theorem C4_counterexample :
    ((translate { } stackPts).map (·.stackIndex)) = [some 0, some 1] ∧
    ¬(∀ (j : ℕ) (p : FlagPoint), (translate { } stackPts)[j]? = some p →
        (¬p.stackIndex = none ↔
          j ≠ 0 ∧ ∃ q, (translate { } stackPts)[j-1]? = some q ∧ q.plotX = p.plotX)) := by
  have h0 : (translate { } stackPts)[0]? =
      some { x := 1, plotX := 5, plotY := some 400, stackIndex := some 0 } := by
    norm_num [translate, attachPhase, rankPass, rankRest, placePoint, setRank0,
      fallbackY, stackPts]
  constructor
  · norm_num [translate, attachPhase, rankPass, rankRest, placePoint, setRank0,
      fallbackY, stackPts]
  · intro hcl
    have h := (hcl 0 _ h0).mp (by simp)
    exact h.1 rfl

/-- C4 witness: at the same input, position 1 is ranked one above
position 0. -/
theorem C4_witness :
    ∃ p q k, (translate { } stackPts)[0]? = some p ∧
      (translate { } stackPts)[1]? = some q ∧
      p.stackIndex = some k ∧ q.stackIndex = some (k + 1) := by
  have h0 : (translate { } stackPts)[0]? =
      some { x := 1, plotX := 5, plotY := some 400, stackIndex := some 0 } := by
    norm_num [translate, attachPhase, rankPass, rankRest, placePoint, setRank0,
      fallbackY, stackPts]
  have h1 : (translate { } stackPts)[1]? =
      some { x := 1, plotX := 5, plotY := some 400, stackIndex := some 1 } := by
    norm_num [translate, attachPhase, rankPass, rankRest, placePoint, setRank0,
      fallbackY, stackPts]
  obtain ⟨k, hk, hk'⟩ := (C4_stackIndex_stacking { } stackPts 0 _ h0).2.1 _ h1 rfl
  exact ⟨_, _, k, h0, h1, hk, hk'⟩


/-! Step equations of the attachment loop. -/

theorem attachLoop_zero (onData : List RefPoint) (key : OnKey) (step : Bool) (lastX : ℚ)
    (c : ℕ) (pts : List FlagPoint) :
    attachLoop onData key step lastX 0 c pts = pts := by
  rw [attachLoop]
  rw [if_pos rfl]

theorem attachLoop_out (onData : List RefPoint) (key : OnKey) (step : Bool) (lastX : ℚ)
    {i c : ℕ} {pts : List FlagPoint} (hi : i ≠ 0) (hpc : pts[c]? = none) :
    attachLoop onData key step lastX i c pts = pts := by
  rw [attachLoop]
  simp only [if_neg hi, hpc]

theorem attachLoop_noref (onData : List RefPoint) (key : OnKey) (step : Bool) (lastX : ℚ)
    {i c : ℕ} {pts : List FlagPoint} {point : FlagPoint}
    (hi : i ≠ 0) (hpc : pts[c]? = some point) (hod : onData[i-1]? = none) :
    attachLoop onData key step lastX i c pts = pts := by
  rw [attachLoop]
  simp only [if_neg hi, hpc, hod]

theorem attachLoop_skip_undef (onData : List RefPoint) (key : OnKey) (step : Bool) (lastX : ℚ)
    {i c : ℕ} {pts : List FlagPoint} {point : FlagPoint} {leftPoint : RefPoint}
    (hi : i ≠ 0) (hpc : pts[c]? = some point) (hod : onData[i-1]? = some leftPoint)
    (hql : leftPoint.channel key = none) :
    attachLoop onData key step lastX i c pts =
      attachLoop onData key step lastX (i - 1) c pts := by
  conv_lhs => rw [attachLoop]
  simp only [if_neg hi, hpc, hod, hql]

theorem attachLoop_skip_far (onData : List RefPoint) (key : OnKey) (step : Bool) (lastX : ℚ)
    {i c : ℕ} {pts : List FlagPoint} {point : FlagPoint} {leftPoint : RefPoint} {l : ℚ}
    (hi : i ≠ 0) (hpc : pts[c]? = some point) (hod : onData[i-1]? = some leftPoint)
    (hql : leftPoint.channel key = some l) (hx : ¬leftPoint.x ≤ point.x) :
    attachLoop onData key step lastX i c pts =
      attachLoop onData key step lastX (i - 1) c pts := by
  conv_lhs => rw [attachLoop]
  simp only [if_neg hi, hpc, hod, hql, if_neg hx]

theorem attachLoop_bind (onData : List RefPoint) (key : OnKey) (step : Bool) (lastX : ℚ)
    {i c : ℕ} {pts : List FlagPoint} {point : FlagPoint} {leftPoint : RefPoint} {l : ℚ}
    (hi : i ≠ 0) (hpc : pts[c]? = some point) (hod : onData[i-1]? = some leftPoint)
    (hql : leftPoint.channel key = some l) (hx : leftPoint.x ≤ point.x) :
    attachLoop onData key step lastX i c pts =
      (if c = 0 then
        pts.set c (bindPoint onData key step lastX (i - 1) leftPoint l point)
      else attachLoop onData key step lastX i (c - 1)
        (pts.set c (bindPoint onData key step lastX (i - 1) leftPoint l point))) := by
  conv_lhs => rw [attachLoop]
  simp only [if_neg hi, hpc, hod, hql, if_pos hx]


/-- The loop never touches positions above the cursor. -/
theorem attachLoop_stable_above (onData : List RefPoint) (key : OnKey) (step : Bool)
    (lastX : ℚ) :
    ∀ (n i c : ℕ) (pts : List FlagPoint) (j : ℕ), i + c ≤ n → c < j →
      (attachLoop onData key step lastX i c pts)[j]? = pts[j]? := by
  intro n
  induction n with
  | zero =>
    intro i c pts j hn hj
    have hi : i = 0 := by omega
    rw [hi, attachLoop_zero]
  | succ n ih =>
    intro i c pts j hn hj
    by_cases hi : i = 0
    · rw [hi, attachLoop_zero]
    · cases hpc : pts[c]? with
      | none => rw [attachLoop_out onData key step lastX hi hpc]
      | some point =>
        cases hod : onData[i-1]? with
        | none => rw [attachLoop_noref onData key step lastX hi hpc hod]
        | some leftPoint =>
          cases hql : leftPoint.channel key with
          | none =>
            rw [attachLoop_skip_undef onData key step lastX hi hpc hod hql]
            exact ih (i-1) c pts j (by omega) hj
          | some l =>
            by_cases hx : leftPoint.x ≤ point.x
            · rw [attachLoop_bind onData key step lastX hi hpc hod hql hx]
              by_cases hc : c = 0
              · rw [if_pos hc]
                exact List.getElem?_set_ne (by omega)
              · rw [if_neg hc]
                rw [ih i (c-1) _ j (by omega) (by omega)]
                exact List.getElem?_set_ne (by omega)
            · rw [attachLoop_skip_far onData key step lastX hi hpc hod hql hx]
              exact ih (i-1) c pts j (by omega) hj

/-- A flag whose x lies beyond `lastX` is never bound: its entry
survives the whole loop unchanged (the `#803` guard). -/
theorem attachLoop_beyond (onData : List RefPoint) (key : OnKey) (step : Bool)
    (lastX : ℚ) (c0 : ℕ) (p : FlagPoint) (hpx : lastX < p.x) :
    ∀ (n i c : ℕ) (pts : List FlagPoint), i + c ≤ n → pts[c0]? = some p →
      (attachLoop onData key step lastX i c pts)[c0]? = some p := by
  intro n
  induction n with
  | zero =>
    intro i c pts hn hp
    have hi : i = 0 := by omega
    rw [hi, attachLoop_zero]
    exact hp
  | succ n ih =>
    intro i c pts hn hp
    by_cases hi : i = 0
    · rw [hi, attachLoop_zero]; exact hp
    · cases hpc : pts[c]? with
      | none => rw [attachLoop_out onData key step lastX hi hpc]; exact hp
      | some point =>
        cases hod : onData[i-1]? with
        | none => rw [attachLoop_noref onData key step lastX hi hpc hod]; exact hp
        | some leftPoint =>
          cases hql : leftPoint.channel key with
          | none =>
            rw [attachLoop_skip_undef onData key step lastX hi hpc hod hql]
            exact ih (i-1) c pts (by omega) hp
          | some l =>
            by_cases hx : leftPoint.x ≤ point.x
            · rw [attachLoop_bind onData key step lastX hi hpc hod hql hx]
              have hset : (pts.set c
                  (bindPoint onData key step lastX (i-1) leftPoint l point))[c0]?
                    = some p := by
                by_cases hcc : c = c0
                · subst hcc
                  rw [hp] at hpc
                  injection hpc with hpc
                  subst hpc
                  have hbind : bindPoint onData key step lastX (i-1) leftPoint l p
                      = p := by
                    unfold bindPoint
                    rw [if_neg (not_le.mpr hpx)]
                  rw [hbind]
                  rw [List.getElem?_set_self (List.getElem?_eq_some_iff.mp hp).1]
                · rw [List.getElem?_set_ne hcc]
                  exact hp
              by_cases hc : c = 0
              · rw [if_pos hc]; exact hset
              · rw [if_neg hc]
                exact ih i (c-1) _ (by omega) hset
            · rw [attachLoop_skip_far onData key step lastX hi hpc hod hql hx]
              exact ih (i-1) c pts (by omega) hp


/-- Progress: while flags with larger x remain above the target, every
one of them is resolved by a test at some reference index above `m`
(index `m` itself always passes the test), so the loop moves to the
next cursor without ever dropping `i` to `m` or below. -/
theorem attachLoop_progress (onData : List RefPoint) (key : OnKey) (step : Bool)
    (lastX : ℚ) (m : ℕ) (leftm : RefPoint) (l : ℚ)
    (hleft : onData[m]? = some leftm) (hchan : leftm.channel key = some l) :
    ∀ (i c : ℕ) (pts : List FlagPoint) (pd : FlagPoint), m < i → i ≤ onData.length →
      c ≠ 0 → pts[c]? = some pd → leftm.x ≤ pd.x →
      ∃ i' p', m < i' ∧ i' ≤ i ∧
        attachLoop onData key step lastX i c pts =
          attachLoop onData key step lastX i' (c - 1) (pts.set c p') := by
  intro i
  induction i using Nat.strong_induction_on with
  | _ i ih =>
    intro c pts pd him hil hc hpd hlx
    have hi0 : i ≠ 0 := by omega
    have hi1 : i - 1 < onData.length := by omega
    obtain ⟨q, hq⟩ : ∃ q, onData[i - 1]? = some q :=
      ⟨onData[i - 1], List.getElem?_eq_getElem hi1⟩
    cases hql : q.channel key with
    | some lq =>
      by_cases hqx : q.x ≤ pd.x
      · refine ⟨i, bindPoint onData key step lastX (i - 1) q lq pd, him, le_refl i, ?_⟩
        rw [attachLoop_bind onData key step lastX hi0 hpd hq hql hqx]
        rw [if_neg hc]
      · have him' : m < i - 1 := by
          rcases Nat.lt_or_ge m (i - 1) with h | h
          · exact h
          · exfalso
            have hmi : i - 1 = m := by omega
            rw [hmi, hleft] at hq
            injection hq with hq
            subst hq
            exact hqx hlx
        obtain ⟨i', p', h1, h2, h3⟩ := ih (i - 1) (by omega) c pts pd him' (by omega) hc hpd hlx
        refine ⟨i', p', h1, by omega, ?_⟩
        rw [attachLoop_skip_far onData key step lastX hi0 hpd hq hql hqx]
        exact h3
    | none =>
      have him' : m < i - 1 := by
        rcases Nat.lt_or_ge m (i - 1) with h | h
        · exact h
        · exfalso
          have hmi : i - 1 = m := by omega
          rw [hmi, hleft] at hq
          injection hq with hq
          subst hq
          rw [hchan] at hql
          simp at hql
      obtain ⟨i', p', h1, h2, h3⟩ := ih (i - 1) (by omega) c pts pd him' (by omega) hc hpd hlx
      refine ⟨i', p', h1, by omega, ?_⟩
      rw [attachLoop_skip_undef onData key step lastX hi0 hpd hq hql]
      exact h3

/-- Scanning: when every reference point above `m` lies strictly right
of the flag at the cursor, the loop skips them all, down to `i = m+1`. -/
theorem attachLoop_scan (onData : List RefPoint) (key : OnKey) (step : Bool)
    (lastX : ℚ) (m : ℕ) (flag : FlagPoint) (c : ℕ)
    (habove : ∀ (j : ℕ) (q : RefPoint), m < j → onData[j]? = some q → flag.x < q.x) :
    ∀ i, m < i → i ≤ onData.length → ∀ pts : List FlagPoint, pts[c]? = some flag →
      attachLoop onData key step lastX i c pts =
        attachLoop onData key step lastX (m + 1) c pts := by
  intro i
  induction i using Nat.strong_induction_on with
  | _ i ih =>
    intro him hil pts hpf
    rcases Nat.lt_or_ge (m + 1) i with hlt | hge
    · have hi0 : i ≠ 0 := by omega
      have hi1 : i - 1 < onData.length := by omega
      obtain ⟨q, hq⟩ : ∃ q, onData[i - 1]? = some q :=
        ⟨onData[i - 1], List.getElem?_eq_getElem hi1⟩
      have hqx : flag.x < q.x := habove (i - 1) q (by omega) hq
      have hnle : ¬q.x ≤ flag.x := not_le.mpr hqx
      cases hql : q.channel key with
      | some lq =>
        rw [attachLoop_skip_far onData key step lastX hi0 hpf hq hql hnle]
        exact ih (i - 1) (by omega) (by omega) (by omega) pts hpf
      | none =>
        rw [attachLoop_skip_undef onData key step lastX hi0 hpf hq hql]
        exact ih (i - 1) (by omega) (by omega) (by omega) pts hpf
    · have : i = m + 1 := by omega
      rw [this]


/-- Master resolution lemma: in a run of the attachment loop over
x-sorted flags, the flag at position `c` is bound against the reference
point at index `m` — the nearest one left of it with a defined channel
value — exactly as `bindPoint` describes. -/
theorem attachLoop_resolves (onData : List RefPoint) (key : OnKey) (step : Bool)
    (lastX : ℚ) (m : ℕ) (leftm : RefPoint) (l : ℚ) (c : ℕ) (flag : FlagPoint)
    (fl : List FlagPoint)
    (hleft : onData[m]? = some leftm) (hchan : leftm.channel key = some l)
    (hlx : leftm.x ≤ flag.x)
    (habove : ∀ (j : ℕ) (q : RefPoint), m < j → onData[j]? = some q → flag.x < q.x)
    (hflc : fl[c]? = some flag)
    (hsort : ∀ (j : ℕ) (q : FlagPoint), c ≤ j → fl[j]? = some q → flag.x ≤ q.x) :
    ∀ (n i : ℕ) (pts : List FlagPoint), c + n < pts.length → pts.length = fl.length →
      (∀ j, j ≤ c + n → pts[j]? = fl[j]?) → m < i → i ≤ onData.length →
      (attachLoop onData key step lastX i (c + n) pts)[c]? =
        some (bindPoint onData key step lastX m leftm l flag) := by
  intro n
  induction n with
  | zero =>
    intro i pts hd hlen hpref him hil
    have hpc : pts[c]? = some flag := by
      rw [hpref c (by omega)]
      exact hflc
    rw [Nat.add_zero] at hd ⊢
    rw [attachLoop_scan onData key step lastX m flag c habove i him hil pts hpc]
    rw [attachLoop_bind onData key step lastX (show m + 1 ≠ 0 by omega) hpc
      (by rw [Nat.add_sub_cancel]; exact hleft) hchan hlx]
    rw [Nat.add_sub_cancel]
    by_cases hc : c = 0
    · rw [if_pos hc]
      subst hc
      rw [List.getElem?_set_self hd]
    · rw [if_neg hc]
      rw [attachLoop_stable_above onData key step lastX (m + 1 + (c - 1)) (m + 1) (c - 1)
        _ c (le_refl _) (by omega)]
      rw [List.getElem?_set_self hd]
  | succ n ih =>
    intro i pts hd hlen hpref him hil
    have hdn : c + n < pts.length := by omega
    have hdd : c + (n + 1) < fl.length := by omega
    obtain ⟨pd, hpd⟩ : ∃ pd, fl[c + (n + 1)]? = some pd :=
      ⟨fl[c + (n + 1)], List.getElem?_eq_getElem hdd⟩
    have hpdp : pts[c + (n + 1)]? = some pd := by
      rw [hpref (c + (n + 1)) (le_refl _)]
      exact hpd
    have hlxd : leftm.x ≤ pd.x :=
      le_trans hlx (hsort (c + (n + 1)) pd (by omega) hpd)
    obtain ⟨i', p', him', hii', heq⟩ := attachLoop_progress onData key step lastX m leftm l
      hleft hchan i (c + (n + 1)) pts pd him hil (by omega) hpdp hlxd
    rw [heq]
    rw [show c + (n + 1) - 1 = c + n from by omega]
    refine ih i' (pts.set (c + (n + 1)) p') (by rw [List.length_set]; omega)
      (by rw [List.length_set]; exact hlen) ?_ him' (by omega)
    intro j hj
    rw [List.getElem?_set_ne (by omega)]
    exact hpref j (by omega)


instance : IsTotal FlagPoint (fun a b => a.x ≤ b.x) :=
  ⟨fun a b => le_total a.x b.x⟩

instance : IsTrans FlagPoint (fun a b => a.x ≤ b.x) :=
  ⟨fun _ _ _ h h' => le_trans h h'⟩

/-- The sorted flag list is monotone in x. -/
theorem sortPoints_mono (pts : List FlagPoint) :
    ∀ (c j : ℕ) (p q : FlagPoint), c ≤ j → (sortPoints pts)[c]? = some p →
      (sortPoints pts)[j]? = some q → p.x ≤ q.x := by
  intro c j p q hcj hp hq
  have hs : List.Sorted (fun a b => a.x ≤ b.x) (sortPoints pts) :=
    List.sorted_insertionSort (fun a b => a.x ≤ b.x) pts
  rcases Nat.eq_or_lt_of_le hcj with heq | hlt
  · subst heq
    rw [hp] at hq
    injection hq with hq
    rw [hq]
  · obtain ⟨hcl, hcg⟩ := List.getElem?_eq_some_iff.mp hp
    obtain ⟨hjl, hjg⟩ := List.getElem?_eq_some_iff.mp hq
    have hpw := List.pairwise_iff_getElem.mp hs c j hcl hjl hlt
    rw [hcg, hjg] at hpw
    exact hpw

/-- Every point of a strictly sorted reference series lies within the
effective upper bound `lastX` (when the grouping extension is
nonnegative). -/
theorem refPoint_le_lastX (os : OnSeries)
    (hsorted : os.points.Pairwise (fun a b => a.x < b.x))
    (htr : 0 ≤ os.currentDataGrouping.getD 0)
    (j : ℕ) (q : RefPoint) (hq : os.points[j]? = some q) :
    q.x ≤ lastXOf os := by
  obtain ⟨hjl, hjg⟩ := List.getElem?_eq_some_iff.mp hq
  have hlast : os.points.length - 1 < os.points.length := by omega
  have hgl : os.points.getLast? = some (os.points[os.points.length - 1]) := by
    rw [List.getLast?_eq_getElem?]
    exact List.getElem?_eq_getElem hlast
  have hqle : q.x ≤ (os.points[os.points.length - 1]).x := by
    rcases Nat.eq_or_lt_of_le (show j ≤ os.points.length - 1 by omega) with heq | hlt
    · have hq2 : os.points[os.points.length - 1]? = some q := by
        rw [← heq]
        exact hq
      rw [List.getElem?_eq_getElem hlast, Option.some.injEq] at hq2
      rw [hq2]
    · have hpw := List.pairwise_iff_getElem.mp hsorted j (os.points.length - 1) hjl hlast hlt
      rw [hjg] at hpw
      exact le_of_lt hpw
  unfold lastXOf
  rw [hgl]
  calc q.x ≤ (os.points[os.points.length - 1]).x := hqle
    _ ≤ (os.points[os.points.length - 1]).x + os.currentDataGrouping.getD 0 :=
        le_add_of_nonneg_right htr

/-- If the reference point after index `m` lies strictly right of the
flag, so does every reference point above `m` (strict sorting). -/
theorem refPoint_above (os : OnSeries)
    (hsorted : os.points.Pairwise (fun a b => a.x < b.x))
    (m : ℕ) (flagx : ℚ)
    (hnext : ∀ q : RefPoint, os.points[m+1]? = some q → flagx < q.x) :
    ∀ (j : ℕ) (q : RefPoint), m < j → os.points[j]? = some q → flagx < q.x := by
  intro j q hmj hq
  obtain ⟨hjl, hjg⟩ := List.getElem?_eq_some_iff.mp hq
  have hm1 : m + 1 < os.points.length := by omega
  have h1 : flagx < (os.points[m+1]).x := hnext _ (List.getElem?_eq_getElem hm1)
  rcases Nat.eq_or_lt_of_le (show m + 1 ≤ j by omega) with heq | hlt
  · refine hnext q ?_
    rw [heq]
    exact hq
  · have hpw := List.pairwise_iff_getElem.mp hsorted (m+1) j hm1 hjl hlt
    rw [hjg] at hpw
    exact lt_trans h1 hpw


/-- With a visible, non-empty reference series the attachment phase
sorts the flags and runs the loop from the last reference index and the
last flag. -/
theorem attachPhase_eq (env : ChartEnv) (os : OnSeries) (pts : List FlagPoint)
    (hos : env.onSeries = some os) (hvis : os.visible = true) (hne : os.points ≠ []) :
    attachPhase env pts =
      (attachLoop os.points env.onKey os.step (lastXOf os) os.points.length
        ((sortPoints pts).length - 1) (sortPoints pts),
       xOffsetOf os) := by
  unfold attachPhase
  simp only [hos]
  rw [if_pos ⟨hvis, hne⟩]

/-- Placement keeps an already-defined `plotY`. -/
theorem placePoint_plotY_some (env : ChartEnv) (xo : ℚ) (a : FlagPoint) (v : ℚ)
    (h : a.plotY = some v) : (placePoint env xo a).plotY = some v := by
  simp [placePoint, h]

/-- The plotY a flag resolved at position `c` ends up with, carried
through the placement and ranking passes. -/
theorem translate_plotY_of_attached (env : ChartEnv) (os : OnSeries)
    (pts : List FlagPoint) (c : ℕ) (v : ℚ)
    (hos : env.onSeries = some os) (hvis : os.visible = true) (hne : os.points ≠ [])
    (hatt : ((attachLoop os.points env.onKey os.step (lastXOf os) os.points.length
        ((sortPoints pts).length - 1) (sortPoints pts))[c]?).map (·.plotY)
      = some (some v)) :
    ((translate env pts)[c]?).map (·.plotY) = some (some v) := by
  have htr : translate env pts = rankPass (((attachPhase env pts).1).map
      (placePoint env (attachPhase env pts).2)) := rfl
  rw [htr, attachPhase_eq env os pts hos hvis hne]
  cases hac : (attachLoop os.points env.onKey os.step (lastXOf os) os.points.length
      ((sortPoints pts).length - 1) (sortPoints pts))[c]? with
  | none => rw [hac] at hatt; simp at hatt
  | some a =>
    rw [hac, Option.map_some', Option.some.injEq] at hatt
    have hmap : (((attachLoop os.points env.onKey os.step (lastXOf os) os.points.length
        ((sortPoints pts).length - 1) (sortPoints pts))).map
          (placePoint env (xOffsetOf os)))[c]? = some (placePoint env (xOffsetOf os) a) := by
      rw [List.getElem?_map, hac, Option.map_some']
    obtain ⟨q, hq, herase⟩ := rankPass_getElem? _ c _ hmap
    rw [hq, Option.map_some', Option.some.injEq]
    obtain ⟨-, -, hqy, -, -, -, -, -⟩ := eraseStack_eq_iff herase
    rw [hqy]
    exact placePoint_plotY_some env _ a v hatt

/-- C1: for a flag strictly between two reference points with defined
channel values, reference series visible and not in step mode, the
resolved `plotY` is the linear interpolation
`l + ((flag.x - left.x) / (right.x - left.x)) * (r - l)` of the two
reference points' channel pixel values. -/
theorem C1_interpolation (env : ChartEnv) (os : OnSeries) (pts : List FlagPoint)
    (c m : ℕ) (flag : FlagPoint) (leftp rightp : RefPoint) (l r : ℚ)
    (hos : env.onSeries = some os) (hvis : os.visible = true)
    (hsorted : os.points.Pairwise (fun a b => a.x < b.x))
    (htr : 0 ≤ os.currentDataGrouping.getD 0)
    (hstep : os.step = false)
    (hflag : (sortPoints pts)[c]? = some flag)
    (hleft : os.points[m]? = some leftp)
    (hright : os.points[m+1]? = some rightp)
    (hlchan : leftp.channel env.onKey = some l)
    (hrchan : rightp.channel env.onKey = some r)
    (hstrict : leftp.x < flag.x)
    (hnear : flag.x < rightp.x) :
    ((translate env pts)[c]?).map (·.plotY) =
      some (some (l + ((flag.x - leftp.x) / (rightp.x - leftp.x)) * (r - l))) := by
  have hne : os.points ≠ [] := by
    intro h
    rw [h] at hleft
    simp at hleft
  have hnext : ∀ q : RefPoint, os.points[m+1]? = some q → flag.x < q.x := by
    intro q hq
    rw [hright, Option.some.injEq] at hq
    rw [← hq]
    exact hnear
  have habove := refPoint_above os hsorted m flag.x hnext
  have hcl : c < (sortPoints pts).length := (List.getElem?_eq_some_iff.mp hflag).1
  have hsort : ∀ (j : ℕ) (q : FlagPoint), c ≤ j → (sortPoints pts)[j]? = some q →
      flag.x ≤ q.x := by
    intro j q hcj hq
    exact sortPoints_mono pts c j flag q hcj hflag hq
  have hmlen : m < os.points.length := (List.getElem?_eq_some_iff.mp hleft).1
  have hres := attachLoop_resolves os.points env.onKey os.step (lastXOf os) m leftp l c
    flag (sortPoints pts) hleft hlchan (le_of_lt hstrict) habove hflag hsort
    ((sortPoints pts).length - 1 - c) os.points.length
    (sortPoints pts) (by omega) rfl (fun j _ => rfl) hmlen (le_refl _)
  rw [show c + ((sortPoints pts).length - 1 - c) = (sortPoints pts).length - 1 from by
    omega] at hres
  have hbind : bindPoint os.points env.onKey os.step (lastXOf os) m leftp l flag =
      { flag with plotY := some (l + ((flag.x - leftp.x) / (rightp.x - leftp.x)) * (r - l)) } := by
    unfold bindPoint
    rw [if_pos (le_trans (le_of_lt hnear)
      (refPoint_le_lastX os hsorted htr (m+1) rightp hright))]
    rw [if_pos ⟨hstrict, hstep⟩]
    simp only [hright, hrchan]
  refine translate_plotY_of_attached env os pts c _ hos hvis hne ?_
  rw [hres, hbind, Option.map_some']


/-- The spec's scenario environment: a visible reference series with
points at x=0 (plotHigh 100) and x=10 (plotHigh 120), flags bound to
the `high` channel. -/
def scenarioEnv : ChartEnv :=
  { onSeries := some
      { visible := true, step := false,
        points := [ { x := 0, plotHigh := some 100 }, { x := 10, plotHigh := some 120 } ] },
    onKey := OnKey.high }

/-- C1 witness: the spec's scenario — flag at x=5 between reference
points (0, 100) and (10, 120) on the high channel resolves to
plotY = 110. -/
theorem C1_witness :
    ((translate scenarioEnv [ { x := 5, plotX := 50 } ])[0]?).map (·.plotY)
      = some (some 110) := by
  have h := C1_interpolation scenarioEnv
    { visible := true, step := false,
      points := [ { x := 0, plotHigh := some 100 }, { x := 10, plotHigh := some 120 } ] }
    [ { x := 5, plotX := 50 } ] 0 0
    { x := 5, plotX := 50 } { x := 0, plotHigh := some 100 } { x := 10, plotHigh := some 120 }
    100 120 rfl rfl (by norm_num [List.pairwise_cons]) (by norm_num) rfl rfl rfl rfl
    rfl rfl (by norm_num) (by norm_num)
  norm_num at h ⊢
  exact h

/-- C2: when a flag's x exactly equals a reference point's x and that
point's channel value is defined, the flag's plotY is that value
exactly, with no interpolation; the quantification over the flag's
position `c` means every flag matched to the same reference point is
bound against it (the loop's `i++` does not consume the point). -/
theorem C2_exact_match (env : ChartEnv) (os : OnSeries) (pts : List FlagPoint)
    (c m : ℕ) (flag : FlagPoint) (leftp : RefPoint) (l : ℚ)
    (hos : env.onSeries = some os) (hvis : os.visible = true)
    (hsorted : os.points.Pairwise (fun a b => a.x < b.x))
    (htr : 0 ≤ os.currentDataGrouping.getD 0)
    (hflag : (sortPoints pts)[c]? = some flag)
    (hleft : os.points[m]? = some leftp)
    (hlchan : leftp.channel env.onKey = some l)
    (heqx : leftp.x = flag.x)
    (hnext : ∀ q : RefPoint, os.points[m+1]? = some q → flag.x < q.x) :
    ((translate env pts)[c]?).map (·.plotY) = some (some l) := by
  have hne : os.points ≠ [] := by
    intro h
    rw [h] at hleft
    simp at hleft
  have habove := refPoint_above os hsorted m flag.x hnext
  have hcl : c < (sortPoints pts).length := (List.getElem?_eq_some_iff.mp hflag).1
  have hsort : ∀ (j : ℕ) (q : FlagPoint), c ≤ j → (sortPoints pts)[j]? = some q →
      flag.x ≤ q.x := fun j q hcj hq => sortPoints_mono pts c j flag q hcj hflag hq
  have hmlen : m < os.points.length := (List.getElem?_eq_some_iff.mp hleft).1
  have hres := attachLoop_resolves os.points env.onKey os.step (lastXOf os) m leftp l c
    flag (sortPoints pts) hleft hlchan (le_of_eq heqx) habove hflag hsort
    ((sortPoints pts).length - 1 - c) os.points.length
    (sortPoints pts) (by omega) rfl (fun j _ => rfl) hmlen (le_refl _)
  rw [show c + ((sortPoints pts).length - 1 - c) = (sortPoints pts).length - 1 from by
    omega] at hres
  have hbind : bindPoint os.points env.onKey os.step (lastXOf os) m leftp l flag =
      { flag with plotY := some l } := by
    unfold bindPoint
    rw [if_pos (heqx ▸ refPoint_le_lastX os hsorted htr m leftp hleft)]
    rw [if_neg (fun h => absurd heqx (ne_of_lt h.1))]
  refine translate_plotY_of_attached env os pts c _ hos hvis hne ?_
  rw [hres, hbind, Option.map_some']

/-- C2 witness: two flags, both at x=0 — exactly on the first reference
point — are each bound to its exact channel value 100. -/
theorem C2_witness :
    (((translate scenarioEnv
        [ { x := 0, plotX := 10 }, { x := 0, plotX := 20 } ])[0]?).map (·.plotY)
      = some (some 100)) ∧
    (((translate scenarioEnv
        [ { x := 0, plotX := 10 }, { x := 0, plotX := 20 } ])[1]?).map (·.plotY)
      = some (some 100)) := by
  constructor
  · exact C2_exact_match scenarioEnv
      { visible := true, step := false,
        points := [ { x := 0, plotHigh := some 100 }, { x := 10, plotHigh := some 120 } ] }
      [ { x := 0, plotX := 10 }, { x := 0, plotX := 20 } ] 0 0
      { x := 0, plotX := 10 } { x := 0, plotHigh := some 100 } 100
      rfl rfl (by norm_num [List.pairwise_cons]) (by norm_num) rfl rfl rfl rfl
      (by intro q hq
          rw [show ([ ({ x := 0, plotHigh := some 100 } : RefPoint),
            { x := 10, plotHigh := some 120 } ])[0+1]? = some { x := 10, plotHigh := some 120 }
            from rfl, Option.some.injEq] at hq
          rw [← hq]
          norm_num)
  · exact C2_exact_match scenarioEnv
      { visible := true, step := false,
        points := [ { x := 0, plotHigh := some 100 }, { x := 10, plotHigh := some 120 } ] }
      [ { x := 0, plotX := 10 }, { x := 0, plotX := 20 } ] 1 0
      { x := 0, plotX := 20 } { x := 0, plotHigh := some 100 } 100
      rfl rfl (by norm_num [List.pairwise_cons]) (by norm_num) rfl rfl rfl rfl
      (by intro q hq
          rw [show ([ ({ x := 0, plotHigh := some 100 } : RefPoint),
            { x := 10, plotHigh := some 120 } ])[0+1]? = some { x := 10, plotHigh := some 120 }
            from rfl, Option.some.injEq] at hq
          rw [← hq]
          norm_num)

/-- C3: a flag whose x exceeds the reference series' effective upper
bound (`last reference x` plus the grouping total-range extension) is
not attachment-bound: its plotY is not set from the reference series,
and it falls through to axis-relative placement (the fallback y when
inside the axis extremes, an empty shapeArgs and no plotY otherwise). -/
theorem C3_beyond_bound_unbound (env : ChartEnv) (os : OnSeries) (pts : List FlagPoint)
    (c : ℕ) (flag : FlagPoint)
    (hos : env.onSeries = some os) (hvis : os.visible = true) (hne : os.points ≠ [])
    (hflag : (sortPoints pts)[c]? = some flag)
    (hbeyond : lastXOf os < flag.x)
    (hpy : flag.plotY = none) :
    ∃ q, (translate env pts)[c]? = some q ∧
      q.plotY = (if env.xAxisMin ≤ flag.x ∧ flag.x ≤ env.xAxisMax
        then some (fallbackY env) else none) ∧
      (¬(env.xAxisMin ≤ flag.x ∧ flag.x ≤ env.xAxisMax) → q.shapeArgs = ShapeArgs.empty) := by
  have htr2 : translate env pts = rankPass (((attachPhase env pts).1).map
      (placePoint env (attachPhase env pts).2)) := rfl
  rw [htr2, attachPhase_eq env os pts hos hvis hne]
  have hatt := attachLoop_beyond os.points env.onKey os.step (lastXOf os) c flag hbeyond
    (os.points.length + ((sortPoints pts).length - 1)) os.points.length
    ((sortPoints pts).length - 1) (sortPoints pts) (le_refl _) hflag
  have hmap : ((attachLoop os.points env.onKey os.step (lastXOf os) os.points.length
      ((sortPoints pts).length - 1) (sortPoints pts)).map
        (placePoint env (xOffsetOf os)))[c]? =
      some (placePoint env (xOffsetOf os) flag) := by
    rw [List.getElem?_map, hatt, Option.map_some']
  obtain ⟨q, hq, herase⟩ := rankPass_getElem? _ c _ hmap
  obtain ⟨-, -, hqy, hqsh, -, -, -, -⟩ := eraseStack_eq_iff herase
  refine ⟨q, hq, ?_, ?_⟩
  · rw [hqy]
    by_cases hin : env.xAxisMin ≤ flag.x ∧ flag.x ≤ env.xAxisMax
    · rw [if_pos hin]
      simp [placePoint, hpy, hin]
    · rw [if_neg hin]
      simp [placePoint, hpy, hin]
  · intro hout
    rw [hqsh]
    simp [placePoint, hpy, hout]

/-- C3 witness: a flag at x=11, beyond the scenario reference series'
last x (10), is not bound and takes the axis fallback. -/
theorem C3_witness :
    ∃ q, (translate scenarioEnv [ { x := 11, plotX := 80 } ])[0]? = some q ∧
      q.plotY = (if scenarioEnv.xAxisMin ≤ ({ x := 11, plotX := 80 } : FlagPoint).x ∧
          ({ x := 11, plotX := 80 } : FlagPoint).x ≤ scenarioEnv.xAxisMax
        then some (fallbackY scenarioEnv) else none) ∧
      (¬(scenarioEnv.xAxisMin ≤ ({ x := 11, plotX := 80 } : FlagPoint).x ∧
          ({ x := 11, plotX := 80 } : FlagPoint).x ≤ scenarioEnv.xAxisMax) →
        q.shapeArgs = ShapeArgs.empty) := by
  exact C3_beyond_bound_unbound scenarioEnv
    { visible := true, step := false,
      points := [ { x := 0, plotHigh := some 100 }, { x := 10, plotHigh := some 120 } ] }
    [ { x := 11, plotX := 80 } ] 0 { x := 11, plotX := 80 }
    rfl rfl (by simp) rfl (by norm_num [lastXOf]) rfl

end Flags
